import Mathlib

/-!
Shallow embedding of the Typed Eva static type checker
(`src/TypeEnvironment.js`, `src/Type.js`, `src/EvaTC.js`) and proofs about it.

Expressions are the parsed S-expression trees the checker consumes: JS numbers,
strings (quoted literals, identifiers, and `<...>` annotations are all strings),
booleans, and nested arrays.  Types mirror the `Type` class hierarchy.  The
mutable `TypeEnvironment` chain and the process-wide registry (properties on the
`Type` class object) are threaded explicitly as a state value.  JS exceptions
(both the checker's own `throw` strings and genuine `TypeError`s from accessing
properties of `undefined`) are modelled with `Except`.
-/

namespace Eva

/-- Expression trees: atoms are JS numbers, strings, or booleans; lists are JS
arrays.  Identifiers, quoted string literals and bracket annotations are all
string atoms, exactly as the checker receives them from the reader. -/
inductive Exp where
  | num (n : Int)
  | str (s : String)
  | bool (b : Bool)
  | list (xs : List Exp)
deriving Repr

mutual

/-- Structural (JS `===`-style) equality on expressions. -/
def beqExp : Exp → Exp → Bool
  | .num a, .num b => a == b
  | .str a, .str b => a == b
  | .bool a, .bool b => a == b
  | .list xs, .list ys => beqExpList xs ys
  | _, _ => false

/-- Pointwise `beqExp` on expression lists. -/
def beqExpList : List Exp → List Exp → Bool
  | [], [] => true
  | x :: xs, y :: ys => beqExp x y && beqExpList xs ys
  | _, _ => false

end

/-- Types, mirroring `Type` and its subclasses in `src/Type.js`.

* `prim` covers the five singletons `number`, `string`, `boolean`, `null`, `any`.
* `fn` is `Type.Function`; its `name` field is the canonical
  `Fn<Return<...>>` string, computed at construction by `getName`.
* `alias` is `Type.Alias` (name plus parent type).
* `union` is `Type.Union` (name plus option list).
* `cls` is `Type.Class`; its field table is a `TypeEnvironment`, referenced by
  index into the threaded state (`envId`).
* `gfn` is `Type.GenericFunction`.  In `src/Type.js` its class body is
  `/* Implement here */`; the fields here are modelled from the spec and from
  the call sites in `EvaTC._createGenericFunctionType` / the generic-call
  branch: the raw generic-parameter string (the `<...>` annotation with the
  brackets stripped), the raw parameter expressions, the unresolved return-type
  string, the unchecked body, and the captured defining environment. -/
inductive Ty where
  | prim (name : String)
  | fn (name : String) (paramTypes : List Ty) (returnType : Ty)
  | alias (name : String) (parent : Ty)
  | union (name : String) (optionTypes : List Ty)
  | cls (name : String) (superClass : Ty) (envId : Nat)
  | gfn (genericTypesStr : String) (params : List Exp) (returnTypeStr : String)
        (body : Exp) (envId : Nat)
deriving Repr

mutual

/-- Structural equality on types, standing in for JS reference equality
(`===`): the checker only ever compares registry/environment values, which are
shared singletons, so structurally equal constructed types coincide with
identical references for every program the checker can build. -/
def beqTy : Ty → Ty → Bool
  | .prim a, .prim b => a == b
  | .fn n ps r, .fn n2 ps2 r2 => n == n2 && beqTyList ps ps2 && beqTy r r2
  | .alias n p, .alias n2 p2 => n == n2 && beqTy p p2
  | .union n os, .union n2 os2 => n == n2 && beqTyList os os2
  | .cls n s e, .cls n2 s2 e2 => n == n2 && beqTy s s2 && e == e2
  | .gfn g p r b e, .gfn g2 p2 r2 b2 e2 =>
      g == g2 && beqExpList p p2 && r == r2 && beqExp b b2 && e == e2
  | _, _ => false

/-- Pointwise `beqTy` on type lists. -/
def beqTyList : List Ty → List Ty → Bool
  | [], [] => true
  | x :: xs, y :: ys => beqTy x y && beqTyList xs ys
  | _, _ => false

end

/-- Value of the JS `name` property of a type.  Every class but
`GenericFunction` stores a string there; the modelled `GenericFunction` leaves
it `undefined` (`none`). -/
def tyName : Ty → Option String
  | .prim n => some n
  | .fn n _ _ => some n
  | .alias n _ => some n
  | .union n _ => some n
  | .cls n _ _ => some n
  | .gfn .. => none

/-- Display name (`getName`/`toString`).  `fn` values carry their canonical
name, synthesized at construction (see `mkFnTy`). -/
def Ty.getName : Ty → String
  | .prim n => n
  | .fn n _ _ => n
  | .alias n _ => n
  | .union n _ => n
  | .cls n _ _ => n
  | .gfn .. => "undefined"

/-- Canonical function-type name, as synthesized by `Type.Function.getName`:
`Fn<Return>` with no parameters, `Fn<Return<P1,P2,...>>` otherwise. -/
def fnNameOf (ps : List Ty) (r : Ty) : String :=
  "Fn<" ++ r.getName ++
    (if ps.length = 0 then "" else "<" ++ String.intercalate "," (ps.map Ty.getName) ++ ">") ++
    ">"

/-- The `Type.Function` constructor: keeps an explicitly given name (the
memoized source string) or synthesizes the canonical one. -/
def mkFnTy (name : Option String) (ps : List Ty) (r : Ty) : Ty :=
  match name with
  | some n => .fn n ps r
  | none => .fn (fnNameOf ps r) ps r

/-- Errors.  The checker's own `throw`n messages get one constructor per kind;
`typeErr` stands for a genuine JS `TypeError` (property access or destructuring
on `undefined`/non-objects); `fuel` marks exhausted recursion fuel and is
unreachable at the fuel bounds used in the theorems below. -/
inductive Err where
  | fuel
  | typeErr
  | refErr (name : String)
  | unknownType (s : String)
  | unknownTypeFn (s : String)
  | dupType (name : String)
  | undefType (name : String)
  | unknownClass (name : String)
  | opArity
  | arity (expected given : Nat)
  | expectFail (actual expected : String)
  | returnMismatch (expected actual : String)
  | noActualTypes
  | unknownExpr
deriving Repr

/-- One `TypeEnvironment`: a local record plus an optional parent reference. -/
structure TEnv where
  record : List (String × Ty)
  parent : Option Nat
deriving Repr

/-- Threaded mutable state: the arena of all `TypeEnvironment` objects (a
`TEnv`'s index is its identity) and the process-wide type registry (the own
properties of the `Type` class object that hold `Type` values: the five
primitive singletons, declared aliases/unions/classes, and memoized parsed
function-type strings). -/
structure St where
  envs : List TEnv
  registry : List (String × Ty)
deriving Repr

/-- Association-list lookup (first match wins, like a JS object property). -/
def assocR : List (String × Ty) → String → Option Ty
  | [], _ => none
  | (k, v) :: rest, n => if k == n then some v else assocR rest n

/-- Association-list update: overwrite in place, or append a new key. -/
def assocSet : List (String × Ty) → String → Ty → List (String × Ty)
  | [], n, t => [(n, t)]
  | (k, v) :: rest, n, t =>
      if k == n then (n, t) :: rest else (k, v) :: assocSet rest n t

/-- Replace the record of the environment at an index. -/
def updateEnvRecord : List TEnv → Nat → String → Ty → List TEnv
  | [], _, _, _ => []
  | e :: rest, 0, n, t => { e with record := assocSet e.record n t } :: rest
  | e :: rest, Nat.succ i, n, t => e :: updateEnvRecord rest i n t

/-- `TypeEnvironment.define`: inserts into (or overwrites in) the local record
of the environment `id`. -/
def defineVar (st : St) (id : Nat) (n : String) (t : Ty) : St :=
  { st with envs := updateEnvRecord st.envs id n t }

/-- `TypeEnvironment.lookup` as implemented in `src/TypeEnvironment.js`: it
consults only the local `record` and throws `ReferenceError` on a miss.  The
parent chain is never consulted — the chain-walking line
(`return this.resolve(name).record[name]`) is commented out in the source and
`resolve` has an empty body. -/
def lookupVar (st : St) (id : Nat) (n : String) : Except Err Ty :=
  match st.envs[id]? with
  | none => .error .typeErr
  | some e =>
    match assocR e.record n with
    | some t => .ok t
    | none => .error (.refErr n)

/-- Allocate a fresh `TypeEnvironment`; returns its index. -/
def newEnv (st : St) (record : List (String × Ty)) (parent : Option Nat) : Nat × St :=
  (st.envs.length, { st with envs := st.envs ++ [⟨record, parent⟩] })

/-- Registry read (`Type[name]`, for names holding `Type` values). -/
def regGet (st : St) (n : String) : Option Ty := assocR st.registry n

/-- Registry membership (`Type.hasOwnProperty(name)` restricted to the
properties that hold `Type` values; the class-object oddities such as
`Function` or `prototype` never collide with the names the checker uses). -/
def regHas (st : St) (n : String) : Bool := (regGet st n).isSome

/-- Registry write (`Type[name] = t`). -/
def regSet (st : St) (n : String) (t : Ty) : St :=
  { st with registry := assocSet st.registry n t }

/-- Split a character list at every occurrence of `c` (JS `String.split` with a
single-character separator: `''.split(c)` gives `['']`). -/
def splitCh (c : Char) : List Char → List (List Char)
  | [] => [[]]
  | x :: xs =>
    if x == c then [] :: splitCh c xs
    else
      match splitCh c xs with
      | g :: gs => (x :: g) :: gs
      | [] => [[x]]

/-- JS `s.split(c)` for a one-character separator. -/
def splitOnCh (c : Char) (s : String) : List String :=
  (splitCh c s.toList).map String.mk

/-- Leading-whitespace removal on the pieces produced by `/,\s*/`. -/
def dropLeadingWs (s : String) : String := String.mk (s.toList.dropWhile Char.isWhitespace)

/-- JS `s.split(/,\s*/g)`: split on a comma and swallow the whitespace that
follows it. -/
def splitCommaWs (s : String) : List String :=
  match splitOnCh ',' s with
  | [] => []
  | first :: rest => first :: rest.map dropLeadingWs

/-- Does `p` occur as a prefix of `s`? -/
def strStartsWith (s p : String) : Bool := s.toList.take p.length == p.toList

/-- Does `p` occur as a suffix of `s`? -/
def strEndsWith (s p : String) : Bool :=
  s.length ≥ p.length && s.toList.drop (s.length - p.length) == p.toList

/-- Does the pattern occur anywhere in the list (JS `includes`)? -/
def hasSubAux (pat : List Char) : List Char → Bool
  | [] => pat.isEmpty
  | c :: rest => (c :: rest).take pat.length == pat || hasSubAux pat rest

/-- JS `typeStr.includes('Fn<')`. -/
def containsFnLt (s : String) : Bool := hasSubAux "Fn<".toList s.toList

/-- JS `s.slice(1, -1)`: strip the first and last characters. -/
def stripEnds (s : String) : String := (s.drop 1).dropRight 1

/-- Character class `\w` = `[A-Za-z0-9_]`. -/
def isWordChar (c : Char) : Bool := c.isAlphanum || c == '_'

/-- Character class `[a-z,\s]` from the function-type parameter pattern. -/
def isParamChar (c : Char) : Bool := c.isLower || c == ',' || c.isWhitespace

/-- Match `^Fn<(\w+)<([a-z,\s]+)>>$`, returning the return-type capture and the
parameter-list capture.  `\w` contains no `<`, so the first capture necessarily
ends at the first `<` after the prefix, and `[a-z,\s]` contains no `>`, so the
second capture ends exactly at the final `>>`. -/
def parseFnFull (s : String) : Option (String × String) :=
  if strStartsWith s "Fn<" then
    match splitOnCh '<' (s.drop 3) with
    | retS :: afterParts@(_ :: _) =>
      let after := String.intercalate "<" afterParts
      let p := after.dropRight 2
      if retS ≠ "" && retS.toList.all isWordChar && strEndsWith after ">>" &&
          p ≠ "" && p.toList.all isParamChar
      then some (retS, p)
      else none
    | _ => none
  else none

/-- Match `^Fn<(\w+)>$`, returning the return-type capture. -/
def parseFnRet (s : String) : Option String :=
  if strStartsWith s "Fn<" && strEndsWith s ">" && s.length ≥ 5 then
    let mid := (s.drop 3).dropRight 1
    if mid ≠ "" && mid.toList.all isWordChar then some mid else none
  else none

/-- Resolve the parameter captures of a function-type string.  In the source
each piece goes through `Type.fromString` again, but a piece matched by
`[a-z,\s]+` can never contain `Fn<`, so that recursive call is exactly a
registry lookup or an `Unknown type` throw. -/
def resolveParams (st : St) : List String → Except Err (List Ty)
  | [] => .ok []
  | p :: ps =>
    match regGet st p with
    | some t =>
      match resolveParams st ps with
      | .ok ts => .ok (t :: ts)
      | .error e => .error e
    | none => .error (.unknownType p)

/-- `Type.fromString` (with `Type.Function.fromString` inlined), threading the
registry: a registered name resolves immediately; otherwise strings containing
`Fn<` are parsed as function types and memoized on the registry; everything
else throws.  The return-type capture is `\w+` and so can never contain `Fn<`;
its recursive `Type.fromString` call is again a plain registry lookup. -/
def fromString (st : St) (s : String) : Except Err (Ty × St) :=
  match regGet st s with
  | some t => .ok (t, st)
  | none =>
    if containsFnLt s then
      match parseFnFull s with
      | some (retS, paramsS) =>
        match resolveParams st (splitCommaWs paramsS) with
        | .error e => .error e
        | .ok paramTys =>
          match regGet st retS with
          | some retTy =>
            let ft := mkFnTy (some s) paramTys retTy
            .ok (ft, regSet st s ft)
          | none => .error (.unknownType retS)
      | none =>
        match parseFnRet s with
        | some retS =>
          match regGet st retS with
          | some retTy =>
            let ft := mkFnTy (some s) [] retTy
            .ok (ft, regSet st s ft)
          | none => .error (.unknownType retS)
        | none => .error (.unknownTypeFn s)
    else .error (.unknownType s)

/-- The five primitive singletons installed on the `Type` class object. -/
def primRegistry : List (String × Ty) :=
  [("number", .prim "number"), ("string", .prim "string"), ("boolean", .prim "boolean"),
   ("null", .prim "null"), ("any", .prim "any")]

/-- State before any environment or parsed function type exists. -/
def st0 : St := { envs := [], registry := primRegistry }

/-- The `Array.prototype.some` loop inside `Type.Union.equals`
(`this.optionTypes.some(t => t.equals(other))`): stop at the first `true`;
a thrown error aborts the whole loop. -/
def someEq (s : Ty → Except Err Bool) : List Ty → Except Err Bool
  | [] => .ok false
  | o :: os =>
    match s o with
    | .ok true => .ok true
    | .ok false => someEq s os
    | .error e => .error e

/-- The membership loop of `Type.Union.includesAll`: every element must test
`true`; the first `false` or thrown error aborts. -/
def allEqMember (s : Ty → Except Err Bool) : List Ty → Except Err Bool
  | [] => .ok true
  | q :: qs =>
    match s q with
    | .ok true => allEqMember s qs
    | .ok false => .ok false
    | .error e => .error e

/-- The pairwise parameter loop of `Type.Function.equals`.  The caller has
already ensured equal lengths, so the ragged cases are unreachable. -/
def pairEq (s : Ty → Ty → Except Err Bool) : List Ty → List Ty → Except Err Bool
  | [], _ => .ok true
  | _ :: _, [] => .ok true
  | p :: ps, q :: qs =>
    match s p q with
    | .ok true => pairEq s ps qs
    | .ok false => .ok false
    | .error e => .error e

/-- The `equals` protocol of `src/Type.js`, by receiver kind, with the one-step
method delegations written as direct recursive calls:

* base `Type.equals` (primitives, and the modelled `GenericFunction`, which
  inherits it): delegate to an `Alias` or `Union` argument, else compare `name`
  properties;
* `Type.Function.equals`: read `other.paramTypes` — a `TypeError` unless the
  argument is itself a `Function` — then compare arity, parameters pairwise,
  and return types;
* `Type.Alias.equals`: equal names, else recurse into the parent;
* `Type.Union.equals`: reference identity, delegate to an `Alias`,
  `includesAll` against another `Union` (size-exact membership), else
  membership of the argument among the options;
* `Type.Class.equals`: reference identity, delegate to an `Alias`, else walk up
  the superclass chain, reaching `false` at the root (`superClass ===
  Type.null`).

The fuel only bounds recursion depth; `equalsT` supplies enough for every
input. -/
def equalsF : Nat → Ty → Ty → Except Err Bool
  | 0, _, _ => .error .fuel
  | Nat.succ f, t, u =>
    match t with
    | .prim n =>
      match u with
      | .alias .. => equalsF f u t
      | .union .. => equalsF f u t
      | _ => .ok (some n == tyName u)
    | .gfn .. =>
      match u with
      | .alias .. => equalsF f u t
      | .union .. => equalsF f u t
      | _ => .ok (tyName t == tyName u)
    | .fn _ ps r =>
      match u with
      | .fn _ qs r2 =>
        if ps.length ≠ qs.length then .ok false
        else
          match pairEq (fun p q => equalsF f p q) ps qs with
          | .ok true => equalsF f r r2
          | .ok false => .ok false
          | .error e => .error e
      | _ => .error .typeErr
    | .alias n p =>
      if some n == tyName u then .ok true else equalsF f p u
    | .union _ os =>
      if beqTy t u then .ok true
      else
        match u with
        | .alias .. => equalsF f u t
        | .union _ qs =>
          if qs.length ≠ os.length then .ok false
          else allEqMember (fun q => equalsF f t q) qs
        | _ => someEq (fun o => equalsF f o u) os
    | .cls _ sup _ =>
      if beqTy t u then .ok true
      else
        match u with
        | .alias .. => equalsF f u t
        | _ => if beqTy sup (.prim "null") then .ok false else equalsF f sup u

mutual

/-- Size of a type term, for fuel bounds. -/
def tySize : Ty → Nat
  | .prim _ => 1
  | .gfn .. => 1
  | .fn _ ps r => 1 + tySizeList ps + tySize r
  | .alias _ p => 1 + tySize p
  | .union _ os => 1 + tySizeList os
  | .cls _ sup _ => 1 + tySize sup

/-- Total size of a list of type terms. -/
def tySizeList : List Ty → Nat
  | [] => 0
  | t :: ts => 1 + tySize t + tySizeList ts

end

/-- Delegation weight of a receiver: method delegations (`other.equals(this)`)
swap the operands without shrinking them, but they always move to a receiver of
strictly smaller weight, so `dM` still decreases on every recursive call. -/
def flagT : Ty → Nat
  | .alias .. => 0
  | .union .. => 1
  | .cls .. => 1
  | _ => 2

/-- Termination measure for the `equals` protocol. -/
def dM (t u : Ty) : Nat := 3 * (tySize t + tySize u) + flagT t

/-- `equals` with enough fuel for its argument pair. -/
def equalsT (t u : Ty) : Except Err Bool := equalsF (dM t u + 1) t u

/-- `EvaTC._expect`: succeed with the actual type when `equals` answers `true`,
throw the type-mismatch error on `false`, propagate a thrown `TypeError`. -/
def expectT (actualType expectedType : Ty) : Except Err Ty :=
  match equalsT actualType expectedType with
  | .ok true => .ok actualType
  | .ok false => .error (.expectFail actualType.getName expectedType.getName)
  | .error e => .error e

/-- `EvaTC._isNumber`. -/
def isNumberE : Exp → Bool
  | .num _ => true
  | _ => false

/-- JS `exp[0] === '"' && exp.slice(-1) === '"'`. -/
def isQuoted (s : String) : Bool := s.length ≥ 1 && s.front == '"' && s.back == '"'

/-- `EvaTC._isString`: a string atom wrapped in literal quote characters. -/
def isStringE : Exp → Bool
  | .str s => isQuoted s
  | _ => false

/-- `EvaTC._isBoolean`: a JS boolean or the atoms `true`/`false`. -/
def isBooleanE : Exp → Bool
  | .bool _ => true
  | .str s => s == "true" || s == "false"
  | _ => false

/-- Character class of `/^[+\-*\/]$/`. -/
def isBinaryOpChar (c : Char) : Bool := c == '+' || c == '-' || c == '*' || c == '/'

/-- `EvaTC._isBinary`: the regex tests `exp[0]` — the first element of an
array, or the first character of a string atom (so any string starting with an
operator character also counts).  Array heads that are not strings stringify to
something the one-character pattern cannot match. -/
def isBinaryE : Exp → Bool
  | .str s => s.length ≥ 1 && isBinaryOpChar s.front
  | .list (.str op :: _) => op.length == 1 && isBinaryOpChar op.front
  | _ => false

/-- `EvaTC._isBooleanBinary`: `exp[0]` is compared with `===` against the six
operator strings; for a string atom `exp[0]` is its one-character head, which
can only equal `>` or `<`. -/
def isBooleanBinaryE : Exp → Bool
  | .str s => s.length ≥ 1 && (s.front == '>' || s.front == '<')
  | .list (.str op :: _) =>
      op == "==" || op == "!=" || op == ">=" || op == "<=" || op == ">" || op == "<"
  | _ => false

/-- Operand extraction for the binary forms after `_checkArity(exp, 2)`:
`exp[1]` and `exp[2]` of a three-element array, or the second and third
characters of a three-character string atom. -/
def operands2 : Exp → Option (Exp × Exp)
  | .list [_, a, b] => some (a, b)
  | .str s =>
    match s.toList with
    | [_, c1, c2] => some (.str (String.mk [c1]), .str (String.mk [c2]))
    | _ => none
  | _ => none

/-- Character class of `_isVariableName`: `/^[+\-*\/<>=a-zA-Z0-9_:]+$/`. -/
def isVarChar (c : Char) : Bool :=
  c == '+' || c == '-' || c == '*' || c == '/' || c == '<' || c == '>' || c == '=' ||
    c.isAlphanum || c == '_' || c == ':'

/-- `EvaTC._isVariableName` on a string atom. -/
def isVarName (s : String) : Bool := s.length ≥ 1 && s.toList.all isVarChar

/-- The pattern `/^<[^>]+>$/` used for generic-parameter and actual-type
annotations. -/
def isGenericBracket (s : String) : Bool :=
  s.length ≥ 3 && s.front == '<' && s.back == '>' && (stripEnds s).toList.all (· ≠ '>')

/-- Shape test of `EvaTC._isGenericDefFunction` on the elements after the
`def` tag: `exp.length === 7 && /^<[^>]+>$/.test(exp[2])`. -/
def isGenericDefShape (rest : List Exp) : Bool :=
  rest.length == 6 &&
    (match rest.drop 1 with
     | Exp.str g :: _ => isGenericBracket g
     | _ => false)

/-- Shape test of `EvaTC._isGenericLambdaFunction` on the elements after the
`lambda` tag: `exp.length === 6 && /^<[^>]+>$/.test(exp[1])`. -/
def isGenericLambdaShape (rest : List Exp) : Bool :=
  rest.length == 5 &&
    (match rest with
     | Exp.str g :: _ => isGenericBracket g
     | _ => false)

/-- `Type.Class.getField`: a lookup in the class's own environment (which, with
the stub `lookup`, never reaches the superclass table).  On a type without an
`env` the property access is a JS `TypeError`. -/
def getField (st : St) (t : Ty) (name : String) : Except Err Ty :=
  match t with
  | .cls _ _ envId => lookupVar st envId name
  | _ => .error .typeErr

/-- Argument loop of `EvaTC._checkFunctionCall`: a parameter that is
(reference-)equal to `Type.any` accepts anything; otherwise the argument type
must `equals` the parameter type. -/
def checkArgs : List Ty → List Ty → Except Err Unit
  | [], _ => .ok ()
  | _ :: _, [] => .ok ()
  | p :: ps, a :: args =>
    if beqTy p (.prim "any") then checkArgs ps args
    else
      match equalsT a p with
      | .ok true => checkArgs ps args
      | .ok false => .error (.expectFail a.getName p.getName)
      | .error e => .error e

/-- `EvaTC._checkFunctionCall`: exact arity, the argument loop, then the
declared return type.  Reading `paramTypes` off a non-`Function` callee is a
JS `TypeError`. -/
def checkFunctionCall (fnTy : Ty) (argTypes : List Ty) : Except Err Ty :=
  match fnTy with
  | .fn _ ps r =>
    if ps.length ≠ argTypes.length then .error (.arity ps.length argTypes.length)
    else
      match checkArgs ps argTypes with
      | .ok _ => .ok r
      | .error e => .error e
  | _ => .error .typeErr

/-- `EvaTC._isTypeCastCondition`: destructure `[op, lhs]` and test
`op === '==' && lhs[0] === 'typeof'`.  Destructuring a number or boolean
throws (not iterable); when `op` is `'=='` but there is no second element,
`lhs[0]` is a read on `undefined` and throws. -/
def castCheck : Exp → Except Err Bool
  | .list (.str opS :: rest) =>
    if opS == "==" then
      match rest with
      | lhs :: _ =>
        match lhs with
        | .list (.str "typeof" :: _) => .ok true
        | _ => .ok false
      | [] => .error .typeErr
    else .ok false
  | .list (_ :: _) => .ok false
  | .list [] => .ok false
  | .str _ => .ok false
  | _ => .error .typeErr

/-- `EvaTC._getSpecifiedType`: the narrowed name and the right-hand side with
its first and last characters stripped (`specificType.slice(1, -1)`).  Shapes
on which the JS destructuring or `slice` would fault are `TypeError`s. -/
def getSpecifiedType : Exp → Except Err (String × String)
  | .list (_ :: .list (_ :: .str name :: _) :: .str spec :: _) => .ok (name, stripEnds spec)
  | _ => .error .typeErr

/-- `EvaTC._extractActulCallTypes`: `exp[1]` must match `/^<([^>]+)>$/`; the
capture is split on commas.  A missing or non-matching element throws the
`No actual types provided in generic call` error. -/
def extractActualCallTypes : Option Exp → Except Err (List String)
  | some (.str s) =>
    if isGenericBracket s then .ok (splitOnCh ',' (stripEnds s))
    else .error .noActualTypes
  | _ => .error .noActualTypes

/-- String-to-string association lookup (a JS `Map.get`). -/
def assocGetS : List (String × String) → String → Option String
  | [], _ => none
  | (k, v) :: rest, n => if k == n then some v else assocGetS rest n

/-- String-to-string association update (a JS `Map.set`). -/
def assocSetS : List (String × String) → String → String → List (String × String)
  | [], n, t => [(n, t)]
  | (k, v) :: rest, n, t =>
      if k == n then (n, t) :: rest else (k, v) :: assocSetS rest n t

/-- `EvaTC._getGenericTypesMap`: pair generic parameter names with actual type
strings positionally.  (When fewer actuals than generics are supplied the JS
map holds `undefined` entries and the checker faults slightly later; the zip
simply omits them.) -/
def getGenericTypesMap (gts actuals : List String) : List (String × String) :=
  (gts.zip actuals).foldl (fun m p => assocSetS m p.1 p.2) []

/-- Parameter loop of `EvaTC._bindFunctionTypes`: substitute each raw
parameter-type string through the generic-types map; names not in the map pass
through unchanged. -/
def bindParamsLoop (m : List (String × String)) : List Exp → Except Err (List Exp)
  | [] => .ok []
  | .list (.str n :: .str pt :: _) :: rest =>
    match bindParamsLoop m rest with
    | .ok bs =>
      .ok (.list [.str n,
        .str (match assocGetS m pt with
              | some a2 => a2
              | none => pt)] :: bs)
    | .error e => .error e
  | _ :: _ => .error .typeErr

/-- `EvaTC._bindFunctionTypes`: substituted parameters plus the substituted
return-type string. -/
def bindFunctionTypes (params : List Exp) (returnType : String)
    (m : List (String × String)) : Except Err (List Exp × String) :=
  match bindParamsLoop m params with
  | .error e => .error e
  | .ok bound =>
    .ok (bound,
      match assocGetS m returnType with
      | some a2 => a2
      | none => returnType)

/-- Parameter processing of `EvaTC._tcFunction`: build the parameters record
(later entries overwrite, first position wins) and the ordered parameter-type
list, resolving each annotation with `Type.fromString`. -/
def buildParams : List Exp → List (String × Ty) → List Ty → St →
    Except Err (List (String × Ty) × List Ty × St)
  | [], rcd, tys, st => .ok (rcd, tys, st)
  | .list (.str n :: .str tyS :: _) :: rest, rcd, tys, st =>
    match fromString st tyS with
    | .error e => .error e
    | .ok (t, st2) => buildParams rest (assocSet rcd n t) (tys ++ [t]) st2
  | _ :: _, _, _, _ => .error .typeErr

/-- The pre-registration map of the `def` branch:
`params.map(([name, typeStr]) => Type.fromString(typeStr))`. -/
def buildParamTypesOnly : List Exp → St → Except Err (List Ty × St)
  | [], st => .ok ([], st)
  | .list (_ :: .str tyS :: _) :: rest, st =>
    match fromString st tyS with
    | .error e => .error e
    | .ok (t, st2) =>
      match buildParamTypesOnly rest st2 with
      | .error e => .error e
      | .ok (ts, st3) => .ok (t :: ts, st3)
  | _ :: _, _ => .error .typeErr

/-- Union-option resolution in the `type` branch:
`options.map(option => Type.fromString(option))`. -/
def resolveOptions : List Exp → St → Except Err (List Ty × St)
  | [], st => .ok ([], st)
  | .str o :: rest, st =>
    match fromString st o with
    | .error e => .error e
    | .ok (t, st1) =>
      match resolveOptions rest st1 with
      | .error e => .error e
      | .ok (ts, st2) => .ok (t :: ts, st2)
  | _ :: _, _ => .error .typeErr

/-- `EvaTC._tcBlock`: check the expressions in order and return the type of the
last.  (JS returns `undefined` for an empty block; modelled as a fault.) -/
def seqRun (step : Exp → St → Except Err (Ty × St)) : List Exp → St → Except Err (Ty × St)
  | [], _ => .error .typeErr
  | [e], st => step e st
  | e :: rest, st =>
    match step e st with
    | .ok (_, st2) => seqRun step rest st2
    | .error er => .error er

/-- Argument-list checking: `argValues.map(arg => this.tc(arg, env))`. -/
def mapArgs (step : Exp → St → Except Err (Ty × St)) : List Exp → St → Except Err (List Ty × St)
  | [], st => .ok ([], st)
  | e :: rest, st =>
    match step e st with
    | .ok (t, st2) =>
      match mapArgs step rest st2 with
      | .ok (ts, st3) => .ok (t :: ts, st3)
      | .error er => .error er
    | .error er => .error er

/-- `EvaTC._tcBody`: a `begin` body is checked with `_tcBlock` directly in the
given environment (no child scope); anything else goes through `tc`. -/
def tcBodyH (step : Exp → Nat → St → Except Err (Ty × St)) (body : Exp) (env : Nat)
    (st : St) : Except Err (Ty × St) :=
  match body with
  | .list (.str "begin" :: es) => seqRun (fun e2 s => step e2 env s) es st
  | _ => step body env st

/-- `EvaTC._tcFunction`: resolve the declared return type, build the parameter
record and types, check the body in a fresh child environment, compare the
inferred return type against the declared one, and produce the concrete
`Function` type. -/
def tcFunctionH (step : Exp → Nat → St → Except Err (Ty × St)) (params : List Exp)
    (returnTypeStr : String) (body : Exp) (envId : Nat) (st : St) : Except Err (Ty × St) :=
  match fromString st returnTypeStr with
  | .error e => .error e
  | .ok (returnType, st1) =>
    match buildParams params [] [] st1 with
    | .error e => .error e
    | .ok (rcd, paramTys, st2) =>
      let (fnEnv, st3) := newEnv st2 rcd (some envId)
      match tcBodyH step body fnEnv st3 with
      | .error e => .error e
      | .ok (actualRet, st4) =>
        match equalsT returnType actualRet with
        | .ok true => .ok (mkFnTy none paramTys returnType, st4)
        | .ok false => .error (.returnMismatch returnType.getName actualRet.getName)
        | .error e => .error e

/-- `EvaTC.tc`: the expression checker, dispatching in exactly the order of the
source's `if` ladder — literals, binary and boolean-binary operators, then the
list forms `type`, `class`, `new`, `super`, `prop`, `var`, bare-name lookup,
`set`, `begin`, `if`, `while`, `def`, `lambda`, and finally generic and simple
function calls.  A tagged list whose payload does not fit the JS destructuring
(missing or wrongly-typed positions where the source would fault on
`undefined`) is a `TypeError`.  The fuel argument only bounds recursion depth:
the generic-call branch re-checks a body fetched from a type value, which is
genuinely unbounded (a generic function whose body calls itself diverges in
the source as well). -/
def tcF : Nat → Exp → Nat → St → Except Err (Ty × St)
  | 0, _, _, _ => .error .fuel
  | Nat.succ f, exp, env, st =>
    if isNumberE exp then .ok (.prim "number", st)
    else if isStringE exp then .ok (.prim "string", st)
    else if isBooleanE exp then .ok (.prim "boolean", st)
    else if isBinaryE exp then
      match operands2 exp with
      | none => .error .opArity
      | some (a, b) =>
        match tcF f a env st with
        | .error e => .error e
        | .ok (t1, st1) =>
          match tcF f b env st1 with
          | .error e => .error e
          | .ok (t2, st2) =>
            match expectT t2 t1 with
            | .error e => .error e
            | .ok t => .ok (t, st2)
    else if isBooleanBinaryE exp then
      match operands2 exp with
      | none => .error .opArity
      | some (a, b) =>
        match tcF f a env st with
        | .error e => .error e
        | .ok (t1, st1) =>
          match tcF f b env st1 with
          | .error e => .error e
          | .ok (t2, st2) =>
            match expectT t2 t1 with
            | .error e => .error e
            | .ok _ => .ok (.prim "boolean", st2)
    else
      match exp with
      | .list (.str "type" :: .str name :: base :: _) =>
        match base with
        | .list (.str "or" :: options) =>
          match resolveOptions options st with
          | .error e => .error e
          | .ok (optionTys, st1) =>
            let u := Ty.union name optionTys
            .ok (u, regSet st1 name u)
        | .str baseS =>
          if regHas st name then .error (.dupType name)
          else
            match regGet st baseS with
            | none => .error (.undefType baseS)
            | some baseTy =>
              let al := Ty.alias name baseTy
              .ok (al, regSet st name al)
        | _ => .error .typeErr
      | .list (.str "type" :: _) => .error .typeErr
      | .list (.str "class" :: .str name :: .str superName :: body :: _) =>
        let superClass :=
          match regGet st superName with
          | some sTy => sTy
          | none => .prim "null"
        let parentEnv : Option Nat :=
          match superClass with
          | .cls _ _ pe => some pe
          | _ => none
        let (clsEnvId, st1) := newEnv st [] parentEnv
        let classType := Ty.cls name superClass clsEnvId
        let st2 := defineVar st1 env name classType
        let st3 := regSet st2 name classType
        match tcBodyH (fun e2 en s => tcF f e2 en s) body clsEnvId st3 with
        | .error e => .error e
        | .ok (_, st4) => .ok (classType, st4)
      | .list (.str "class" :: _) => .error .typeErr
      | .list (.str "new" :: .str className :: argExps) =>
        match regGet st className with
        | none => .error (.unknownClass className)
        | some classType =>
          match mapArgs (fun e2 s => tcF f e2 env s) argExps st with
          | .error e => .error e
          | .ok (argTys, st1) =>
            match getField st1 classType "constructor" with
            | .error e => .error e
            | .ok ctor =>
              match checkFunctionCall ctor (classType :: argTys) with
              | .error e => .error e
              | .ok t => .ok (t, st1)
      | .list (.str "new" :: _) => .error .typeErr
      | .list (.str "super" :: .str className :: _) =>
        match regGet st className with
        | none => .error (.unknownClass className)
        | some classType =>
          match classType with
          | .cls _ sup _ => .ok (sup, st)
          | _ => .error .typeErr
      | .list (.str "super" :: _) => .error .typeErr
      | .list (.str "prop" :: instExp :: .str name :: _) =>
        match tcF f instExp env st with
        | .error e => .error e
        | .ok (instTy, st1) =>
          match getField st1 instTy name with
          | .error e => .error e
          | .ok t => .ok (t, st1)
      | .list (.str "prop" :: _) => .error .typeErr
      | .list (.str "var" :: nameExp :: value :: _) =>
        match tcF f value env st with
        | .error e => .error e
        | .ok (valueType, st1) =>
          match nameExp with
          | .list (.str varName :: .str typeStr :: _) =>
            match fromString st1 typeStr with
            | .error e => .error e
            | .ok (expectedType, st2) =>
              match expectT valueType expectedType with
              | .error e => .error e
              | .ok _ => .ok (expectedType, defineVar st2 env varName expectedType)
          | .str name => .ok (valueType, defineVar st1 env name valueType)
          | _ => .error .typeErr
      | .list (.str "var" :: _) => .error .typeErr
      | .str s =>
        if isVarName s then
          match lookupVar st env s with
          | .ok t => .ok (t, st)
          | .error e => .error e
        else .error .unknownExpr
      | .list (.str "set" :: ref :: value :: _) =>
        match ref with
        | .list (.str "prop" :: instExp :: .str propName :: _) =>
          match tcF f instExp env st with
          | .error e => .error e
          | .ok (instTy, st1) =>
            match tcF f value env st1 with
            | .error e => .error e
            | .ok (valueTy, st2) =>
              match getField st2 instTy propName with
              | .error e => .error e
              | .ok propTy =>
                match expectT valueTy propTy with
                | .error e => .error e
                | .ok t => .ok (t, st2)
        | .list (.str "prop" :: _) => .error .typeErr
        | _ =>
          match tcF f value env st with
          | .error e => .error e
          | .ok (valueTy, st1) =>
            match tcF f ref env st1 with
            | .error e => .error e
            | .ok (varTy, st2) =>
              match expectT valueTy varTy with
              | .error e => .error e
              | .ok t => .ok (t, st2)
      | .list (.str "set" :: _) => .error .typeErr
      | .list (.str "begin" :: es) =>
        let (blockEnv, st1) := newEnv st [] (some env)
        seqRun (fun e2 s => tcF f e2 blockEnv s) es st1
      | .list (.str "if" :: condition :: consequent :: alternate :: _) =>
        match tcF f condition env st with
        | .error e => .error e
        | .ok (t1, st1) =>
          match expectT t1 (.prim "boolean") with
          | .error e => .error e
          | .ok _ =>
            match castCheck condition with
            | .error e => .error e
            | .ok isCast =>
              match
                (if isCast then
                  match getSpecifiedType condition with
                  | .error e => .error e
                  | .ok (nm, spec) =>
                    match fromString st1 spec with
                    | .error e => .error e
                    | .ok (nt, st2) => .ok (newEnv st2 [(nm, nt)] (some env))
                 else .ok (env, st1) : Except Err (Nat × St)) with
              | .error e => .error e
              | .ok (consequentEnv, st2) =>
                match tcF f consequent consequentEnv st2 with
                | .error e => .error e
                | .ok (t2, st3) =>
                  match tcF f alternate env st3 with
                  | .error e => .error e
                  | .ok (t3, st4) =>
                    match expectT t3 t2 with
                    | .error e => .error e
                    | .ok t => .ok (t, st4)
      | .list (.str "if" :: _) => .error .typeErr
      | .list (.str "while" :: condition :: body :: _) =>
        match tcF f condition env st with
        | .error e => .error e
        | .ok (t1, st1) =>
          match expectT t1 (.prim "boolean") with
          | .error e => .error e
          | .ok _ => tcF f body env st1
      | .list (.str "while" :: _) => .error .typeErr
      | .list (.str "def" :: rest) =>
        if isGenericDefShape rest then
          match rest with
          | nm :: gen :: params :: retDel :: retStr :: body :: _ =>
            tcF f (.list [.str "var", nm,
              .list [.str "lambda", gen, params, retDel, retStr, body]]) env st
          | _ => .error .typeErr
        else
          match rest with
          | .str name :: .list params :: retDel :: .str retStr :: body :: _ =>
            match buildParamTypesOnly params st with
            | .error e => .error e
            | .ok (paramTys, st1) =>
              match fromString st1 retStr with
              | .error e => .error e
              | .ok (retTy, st2) =>
                let st3 := defineVar st2 env name (mkFnTy none paramTys retTy)
                tcF f (.list [.str "var", .str name,
                  .list [.str "lambda", .list params, retDel, .str retStr, body]]) env st3
          | _ => .error .typeErr
      | .list (.str "lambda" :: rest) =>
        if isGenericLambdaShape rest then
          match rest with
          | .str gen :: .list paramExps :: _retDel :: .str retStr :: body :: _ =>
            .ok (.gfn (stripEnds gen) paramExps retStr body env, st)
          | _ => .error .typeErr
        else
          match rest with
          | .list paramExps :: _retDel :: .str retStr :: body :: _ =>
            tcFunctionH (fun e2 en s => tcF f e2 en s) paramExps retStr body env st
          | _ => .error .typeErr
      | .list (fnExp :: argExpsAll) =>
        match tcF f fnExp env st with
        | .error e => .error e
        | .ok (fnTy, st1) =>
          match fnTy with
          | .gfn genericTypesStr params returnTypeStr body closureEnv =>
            match extractActualCallTypes argExpsAll.head? with
            | .error e => .error e
            | .ok actualTypes =>
              match bindFunctionTypes params returnTypeStr
                  (getGenericTypesMap (splitOnCh ',' genericTypesStr) actualTypes) with
              | .error e => .error e
              | .ok (boundParams, boundRet) =>
                match tcFunctionH (fun e2 en s => tcF f e2 en s)
                    boundParams boundRet body closureEnv st1 with
                | .error e => .error e
                | .ok (actualFn, st2) =>
                  match mapArgs (fun e2 s => tcF f e2 env s) (argExpsAll.drop 1) st2 with
                  | .error e => .error e
                  | .ok (argTys, st3) =>
                    match checkFunctionCall actualFn argTys with
                    | .error e => .error e
                    | .ok t => .ok (t, st3)
          | _ =>
            match mapArgs (fun e2 s => tcF f e2 env s) argExpsAll st1 with
            | .error e => .error e
            | .ok (argTys, st2) =>
              match checkFunctionCall fnTy argTys with
              | .error e => .error e
              | .ok t => .ok (t, st2)
      | .list [] => .error .typeErr
      | _ => .error .unknownExpr

/-- `EvaTC._createGlobal`: the global environment with `VERSION`, `sum`,
`square` and `typeof`; building it memoizes the three parsed function-type
strings on the registry. -/
def mkGlobal : Except Err (Nat × St) :=
  match fromString st0 "Fn<number<number,number>>" with
  | .error e => .error e
  | .ok (sumTy, st1) =>
    match fromString st1 "Fn<number<number>>" with
    | .error e => .error e
    | .ok (squareTy, st2) =>
      match fromString st2 "Fn<string<any>>" with
      | .error e => .error e
      | .ok (typeofTy, st3) =>
        .ok (newEnv st3
          [("VERSION", .prim "string"), ("sum", sumTy), ("square", squareTy),
           ("typeof", typeofTy)] none)

/-- State of a fresh `EvaTC` instance. -/
def globalSt : St :=
  match mkGlobal with
  | .ok (_, s) => s
  | .error _ => st0

/-- Index of the global environment. -/
def globalEnv : Nat :=
  match mkGlobal with
  | .ok (g, _) => g
  | .error _ => 0

/-- `EvaTC.tcGlobal` on a fresh instance: check a top-level expression (a
top-level `begin` runs directly in the global environment via `_tcBody`). -/
def tcGlobal (f : Nat) (e : Exp) : Except Err (Ty × St) :=
  tcBodyH (fun e2 en s => tcF f e2 en s) e globalEnv globalSt

/-- Resulting type of a global check, discarding the final state. -/
def tcRes (f : Nat) (e : Exp) : Except Err Ty :=
  match tcGlobal f e with
  | .ok (t, _) => .ok t
  | .error e2 => .error e2

/-- Receivers that use the base `Type.equals` (primitives and the modelled
`GenericFunction`). -/
def isBaseReceiver : Ty → Bool
  | .prim _ => true
  | .gfn .. => true
  | _ => false

/-- Is the type an `Alias` or a `Union`? -/
def isAliasOrUnion : Ty → Bool
  | .alias .. => true
  | .union .. => true
  | _ => false

mutual

/-- No `Function` type occurs anywhere in the term (not as the type itself, nor
behind alias parents, union options, or superclass chains). -/
def noFn : Ty → Bool
  | .prim _ => true
  | .gfn .. => true
  | .fn .. => false
  | .alias _ p => noFn p
  | .union _ os => noFnList os
  | .cls _ sup _ => noFn sup

/-- Pointwise `noFn` over a list. -/
def noFnList : List Ty → Bool
  | [] => true
  | t :: ts => noFn t && noFnList ts

end

/-- Body of the `if` branch of `EvaTC.tc`, parameterized by the recursive
checker: condition must be `boolean`; when `_isTypeCastCondition` holds the
consequent is checked in a fresh child environment rebinding the narrowed name,
otherwise in the incoming environment; the alternate is always checked in the
incoming environment; both branch types must agree. -/
def ifContH (step : Exp → Nat → St → Except Err (Ty × St))
    (condition consequent alternate : Exp) (env : Nat) (st : St) : Except Err (Ty × St) :=
  match step condition env st with
  | .error e => .error e
  | .ok (t1, st1) =>
    match expectT t1 (.prim "boolean") with
    | .error e => .error e
    | .ok _ =>
      match castCheck condition with
      | .error e => .error e
      | .ok isCast =>
        match
          (if isCast then
            match getSpecifiedType condition with
            | .error e => .error e
            | .ok (nm, spec) =>
              match fromString st1 spec with
              | .error e => .error e
              | .ok (nt, st2) => .ok (newEnv st2 [(nm, nt)] (some env))
           else .ok (env, st1) : Except Err (Nat × St)) with
        | .error e => .error e
        | .ok (consequentEnv, st2) =>
          match step consequent consequentEnv st2 with
          | .error e => .error e
          | .ok (t2, st3) =>
            match step alternate env st3 with
            | .error e => .error e
            | .ok (t3, st4) =>
              match expectT t3 t2 with
              | .error e => .error e
              | .ok t => .ok (t, st4)

/-- The `fact` program from the spec:
`(def fact ((n number)) -> number (if (== n 0) 1 (* n (fact (- n 1)))))`. -/
def factExp : Exp := .list [.str "def", .str "fact",
  .list [.list [.str "n", .str "number"]], .str "->", .str "number",
  .list [.str "if", .list [.str "==", .str "n", .num 0], .num 1,
    .list [.str "*", .str "n", .list [.str "fact", .list [.str "-", .str "n", .num 1]]]]]

/-- A non-recursive `def` for contrast:
`(def sq ((n number)) -> number (* n n))`. -/
def squareDefExp : Exp := .list [.str "def", .str "sq",
  .list [.list [.str "n", .str "number"]], .str "->", .str "number",
  .list [.str "*", .str "n", .str "n"]]

/-- The generic identity function from the spec:
`(def id <T> ((x T)) -> T x)`. -/
def defIdExp : Exp := .list [.str "def", .str "id", .str "<T>",
  .list [.list [.str "x", .str "T"]], .str "->", .str "T", .str "x"]

/-- Nested alias chain over a base type. -/
def aliasChain : List String → Ty → Ty
  | [], b => b
  | n :: ns, b => .alias n (aliasChain ns b)

/-- Program exercising the `(type int number)` alias in both directions:
an `int`-annotated variable fed to a `number` parameter, bound to a `number`
annotation, and a `number` literal bound to an `int` annotation. -/
def intAliasProg : Exp := .list [.str "begin",
  .list [.str "type", .str "int", .str "number"],
  .list [.str "var", .list [.str "x", .str "int"], .num 5],
  .list [.str "sum", .str "x", .num 3],
  .list [.str "var", .list [.str "y", .str "number"], .str "x"],
  .list [.str "var", .list [.str "z", .str "int"], .num 7]]

/-- Program whose `if` condition is `(== (typeof x) y)` with `y` a string
variable — not the quoted-literal cast shape, yet the checker still treats it
as a cast condition. -/
def typeofVarCondProg : Exp := .list [.str "begin",
  .list [.str "var", .str "x", .str "\"s\""],
  .list [.str "var", .str "y", .str "\"t\""],
  .list [.str "if", .list [.str "==", .list [.str "typeof", .str "x"], .str "y"],
    .str "x", .str "x"]]

/-- The same bindings with the plain variable reference the claim expects the
branches to reduce to. -/
def typeofVarCondBase : Exp := .list [.str "begin",
  .list [.str "var", .str "x", .str "\"s\""],
  .list [.str "var", .str "y", .str "\"t\""],
  .str "x"]

/-- Narrowing demonstration: with `x : NS` (a number-or-string union),
`(set x 5)` inside the cast-guarded then-branch sees `x` rebound to `string`
and fails. -/
def narrowProg : Exp := .list [.str "begin",
  .list [.str "type", .str "NS", .list [.str "or", .str "number", .str "string"]],
  .list [.str "var", .list [.str "x", .str "NS"], .str "\"s\""],
  .list [.str "if",
    .list [.str "==", .list [.str "typeof", .str "x"], .str "\"string\""],
    .list [.str "set", .str "x", .num 5],
    .num 0]]

/-- The same `set` under a non-cast condition: `x` keeps its union type and the
assignment passes. -/
def noNarrowProg : Exp := .list [.str "begin",
  .list [.str "type", .str "NS2", .list [.str "or", .str "number", .str "string"]],
  .list [.str "var", .list [.str "x2", .str "NS2"], .str "\"s\""],
  .list [.str "if",
    .list [.str "==", .str "x2", .str "x2"],
    .list [.str "set", .str "x2", .num 5],
    .num 0]]

example : fromString st0 "number" = .ok (.prim "number", st0) := rfl

example : (fromString st0 "Fn<number<number,number>>").map Prod.fst =
    .ok (.fn "Fn<number<number,number>>" [.prim "number", .prim "number"] (.prim "number")) := rfl

example : (fromString st0 "Fn<string<any>>").map Prod.fst =
    .ok (.fn "Fn<string<any>>" [.prim "any"] (.prim "string")) := rfl

example : (fromString st0 "Fn<number>").map Prod.fst =
    .ok (.fn "Fn<number>" [] (.prim "number")) := rfl

example : fromString st0 "nosuch" = .error (.unknownType "nosuch") := rfl

example : fromString st0 "" = .error (.unknownType "") := rfl

example : (fromString st0 "Fn<Fn<number>>").map Prod.fst = .error (.unknownType "Fn") := rfl

example : equalsT (.prim "number") (.prim "number") = .ok true := rfl

example : equalsT (.prim "number") (.prim "string") = .ok false := rfl

example : equalsT (.alias "int" (.prim "number")) (.prim "number") = .ok true := rfl

example : equalsT (.prim "number") (.alias "int" (.prim "number")) = .ok true := rfl

example : equalsT (.union "u" [.prim "number", .prim "string"]) (.prim "string") = .ok true := rfl

example : equalsT (.prim "string") (.union "u" [.prim "number", .prim "string"]) = .ok true := rfl

example :
    equalsT (.fn "Fn<number<number>>" [.prim "number"] (.prim "number"))
      (.fn "Fn<number<number>>" [.prim "number"] (.prim "number")) = .ok true := rfl

example :
    equalsT (.fn "Fn<number<number>>" [.prim "number"] (.prim "number"))
      (.prim "number") = .error .typeErr := rfl

example : tcRes 20 (.num 3) = .ok (.prim "number") := rfl

example : tcRes 20 (.str "\"hi\"") = .ok (.prim "string") := rfl

example : tcRes 20 (.str "true") = .ok (.prim "boolean") := rfl

example : tcRes 20 (.str "VERSION") = .ok (.prim "string") := rfl

example : tcRes 20 (.list [.str "+", .num 1, .num 2]) = .ok (.prim "number") := rfl

example : tcRes 20 (.list [.str "+", .str "\"a\"", .str "\"b\""]) = .ok (.prim "string") := rfl

example : tcRes 20 (.list [.str "+", .num 1, .str "\"a\""]) =
    .error (.expectFail "string" "number") := rfl

example : tcRes 20 (.list [.str "sum", .num 1, .num 2]) = .ok (.prim "number") := rfl

example : tcRes 20 (.list [.str "==", .num 1, .num 2]) = .ok (.prim "boolean") := rfl

example : tcRes 20 (.list [.str "typeof", .str "VERSION"]) = .ok (.prim "string") := rfl

example : tcRes 20 (.list [.str "begin", .num 1, .str "\"s\""]) = .ok (.prim "string") := rfl

example :
    tcRes 20 (.list [.str "if", .list [.str "==", .num 1, .num 2], .num 1, .num 2]) =
      .ok (.prim "number") := rfl

example :
    tcRes 20 (.list [.str "var", .str "x", .num 1]) = .ok (.prim "number") := rfl

example :
    tcRes 20 (.list [.str "lambda", .list [.list [.str "x", .str "number"]],
      .str "->", .str "number", .str "x"]) =
      .ok (.fn "Fn<number<number>>" [.prim "number"] (.prim "number")) := rfl

theorem tySize_pos (t : Ty) : 1 ≤ tySize t := by
  cases t <;> simp only [tySize] <;> omega

theorem tySizeList_lt_of_mem {t : Ty} {ts : List Ty} (h : t ∈ ts) :
    tySize t < tySizeList ts := by
  induction ts with
  | nil => cases h
  | cons x xs ihx =>
    rcases List.mem_cons.mp h with h1 | h2
    · subst h1; simp [tySizeList]; omega
    · have := ihx h2; simp [tySizeList]; omega

theorem flagT_le (t : Ty) : flagT t ≤ 2 := by
  cases t <;> simp [flagT]

theorem dM_swap_lt {t u : Ty} (h : flagT u < flagT t) : dM u t < dM t u := by
  simp only [dM]; omega

theorem dM_lt_of_size {p q t u : Ty} (h : tySize p + tySize q < tySize t + tySize u) :
    dM p q < dM t u := by
  have h1 := flagT_le p
  simp only [dM]; omega

theorem someEq_congr {s₁ s₂ : Ty → Except Err Bool} {os : List Ty}
    (h : ∀ o ∈ os, s₁ o = s₂ o) : someEq s₁ os = someEq s₂ os := by
  induction os with
  | nil => rfl
  | cons o os ihos =>
    simp only [someEq]
    rw [h o (List.mem_cons_self o os)]
    cases s₂ o with
    | ok v =>
      cases v
      · exact ihos fun x hx => h x (List.mem_cons_of_mem o hx)
      · rfl
    | error e => rfl

theorem allEqMember_congr {s₁ s₂ : Ty → Except Err Bool} {qs : List Ty}
    (h : ∀ q ∈ qs, s₁ q = s₂ q) : allEqMember s₁ qs = allEqMember s₂ qs := by
  induction qs with
  | nil => rfl
  | cons q qs ihqs =>
    simp only [allEqMember]
    rw [h q (List.mem_cons_self q qs)]
    cases s₂ q with
    | ok v =>
      cases v
      · rfl
      · exact ihqs fun x hx => h x (List.mem_cons_of_mem q hx)
    | error e => rfl

theorem pairEq_congr {s₁ s₂ : Ty → Ty → Except Err Bool} :
    ∀ {ps qs : List Ty}, (∀ p ∈ ps, ∀ q ∈ qs, s₁ p q = s₂ p q) →
      pairEq s₁ ps qs = pairEq s₂ ps qs
  | [], _, _ => rfl
  | _ :: _, [], _ => rfl
  | p :: ps, q :: qs, h => by
    simp only [pairEq]
    rw [h p (List.mem_cons_self p ps) q (List.mem_cons_self q qs)]
    cases s₂ p q with
    | ok v =>
      cases v
      · rfl
      · exact pairEq_congr fun x hx y hy =>
          h x (List.mem_cons_of_mem p hx) y (List.mem_cons_of_mem q hy)
    | error e => rfl

/-- Fuel irrelevance: any two sufficient fuels give the same `equals` result,
because every recursive call of the protocol strictly decreases `dM`. -/
theorem equalsF_congr :
    ∀ n f₁ f₂ t u, dM t u ≤ n → dM t u < f₁ → dM t u < f₂ →
      equalsF f₁ t u = equalsF f₂ t u := by
  intro n
  induction n using Nat.strong_induction_on with
  | _ n ih =>
    intro f₁ f₂ t u hn h₁ h₂
    obtain ⟨a, rfl⟩ : ∃ a, f₁ = a + 1 := ⟨f₁ - 1, by omega⟩
    obtain ⟨b, rfl⟩ : ∃ b, f₂ = b + 1 := ⟨f₂ - 1, by omega⟩
    have hda : dM t u ≤ a := by omega
    have hdb : dM t u ≤ b := by omega
    have key : ∀ t2 u2, dM t2 u2 < dM t u → equalsF a t2 u2 = equalsF b t2 u2 :=
      fun t2 u2 hlt =>
        ih (dM t2 u2) (lt_of_lt_of_le hlt hn) a b t2 u2 le_rfl
          (lt_of_lt_of_le hlt hda) (lt_of_lt_of_le hlt hdb)
    clear ih hn h₁ h₂ hda hdb
    cases t
    -- receiver: prim
    next nm =>
      cases u
      next => rfl
      next => rfl
      next n2 p2 =>
        simp only [equalsF]
        exact key _ _ (dM_swap_lt (by simp [flagT]))
      next n2 os2 =>
        simp only [equalsF]
        exact key _ _ (dM_swap_lt (by simp [flagT]))
      next => rfl
      next => rfl
    -- receiver: fn
    next nm ps r =>
      cases u
      next => rfl
      next n2 qs r2 =>
        simp only [equalsF]
        by_cases hlen : ps.length = qs.length
        · simp only [hlen, ne_eq, not_true_eq_false, if_false]
          have hfn1 : tySizeList ps < tySize (Ty.fn nm ps r) := by simp only [tySize]; omega
          have hfn2 : tySizeList qs < tySize (Ty.fn n2 qs r2) := by simp only [tySize]; omega
          have hp : pairEq (fun p2 q2 => equalsF a p2 q2) ps qs =
              pairEq (fun p2 q2 => equalsF b p2 q2) ps qs := by
            refine pairEq_congr fun x hx y hy => key x y (dM_lt_of_size ?_)
            have hx2 := tySizeList_lt_of_mem hx
            have hy2 := tySizeList_lt_of_mem hy
            omega
          rw [hp]
          cases hres : pairEq (fun p2 q2 => equalsF b p2 q2) ps qs with
          | ok v =>
            cases v
            · rfl
            · refine key r r2 (dM_lt_of_size ?_)
              have hr1 : tySize r < tySize (Ty.fn nm ps r) := by simp only [tySize]; omega
              have hr2 : tySize r2 < tySize (Ty.fn n2 qs r2) := by simp only [tySize]; omega
              omega
          | error e => rfl
        · simp [hlen]
      next => rfl
      next => rfl
      next => rfl
      next => rfl
    -- receiver: alias
    next nm p =>
      simp only [equalsF]
      cases hc : (some nm == tyName u)
      · simp only [Bool.false_eq_true, if_false]
        exact key p u (dM_lt_of_size (by simp only [tySize]; omega))
      · rfl
    -- receiver: union
    next nm os =>
      simp only [equalsF]
      cases hbe : beqTy (Ty.union nm os) u
      · simp only [Bool.false_eq_true, if_false]
        have hu : tySizeList os < tySize (Ty.union nm os) := by simp [tySize]
        cases u
        next n2 =>
          refine someEq_congr fun o ho => key o _ (dM_lt_of_size ?_)
          have := tySizeList_lt_of_mem ho
          omega
        next n2 ps2 r2 =>
          refine someEq_congr fun o ho => key o _ (dM_lt_of_size ?_)
          have := tySizeList_lt_of_mem ho
          omega
        next n2 p2 => exact key _ _ (dM_swap_lt (by simp [flagT]))
        next n2 qs =>
          by_cases hlen : qs.length = os.length
          · simp only [hlen, ne_eq, not_true_eq_false, if_false]
            refine allEqMember_congr fun q hq => key _ q (dM_lt_of_size ?_)
            have hq2 := tySizeList_lt_of_mem hq
            have hqq : tySizeList qs < tySize (Ty.union n2 qs) := by simp [tySize]
            omega
          · simp [hlen]
        next n2 s2 e2 =>
          refine someEq_congr fun o ho => key o _ (dM_lt_of_size ?_)
          have := tySizeList_lt_of_mem ho
          omega
        next g2 p2 r2 b2 e2 =>
          refine someEq_congr fun o ho => key o _ (dM_lt_of_size ?_)
          have := tySizeList_lt_of_mem ho
          omega
      · rfl
    -- receiver: cls
    next nm sup ce =>
      simp only [equalsF]
      cases hbe : beqTy (Ty.cls nm sup ce) u
      · simp only [Bool.false_eq_true, if_false]
        have hsz : tySize sup < tySize (Ty.cls nm sup ce) := by simp [tySize]
        cases u
        next n2 =>
          cases hnull : beqTy sup (.prim "null")
          · simp only [Bool.false_eq_true, if_false]
            exact key sup _ (dM_lt_of_size (by simp only [tySize]; omega))
          · rfl
        next n2 ps2 r2 =>
          cases hnull : beqTy sup (.prim "null")
          · simp only [Bool.false_eq_true, if_false]
            exact key sup _ (dM_lt_of_size (by simp only [tySize]; omega))
          · rfl
        next n2 p2 => exact key _ _ (dM_swap_lt (by simp [flagT]))
        next n2 os2 =>
          cases hnull : beqTy sup (.prim "null")
          · simp only [Bool.false_eq_true, if_false]
            exact key sup _ (dM_lt_of_size (by simp only [tySize]; omega))
          · rfl
        next n2 s2 e2 =>
          cases hnull : beqTy sup (.prim "null")
          · simp only [Bool.false_eq_true, if_false]
            exact key sup _ (dM_lt_of_size (by simp only [tySize]; omega))
          · rfl
        next g2 p2 r2 b2 e2 =>
          cases hnull : beqTy sup (.prim "null")
          · simp only [Bool.false_eq_true, if_false]
            exact key sup _ (dM_lt_of_size (by simp only [tySize]; omega))
          · rfl
      · rfl
    -- receiver: gfn
    next g p r bd e =>
      cases u
      next => rfl
      next => rfl
      next n2 p2 =>
        simp only [equalsF]
        exact key _ _ (dM_swap_lt (by simp [flagT]))
      next n2 os2 =>
        simp only [equalsF]
        exact key _ _ (dM_swap_lt (by simp [flagT]))
      next => rfl
      next => rfl

/-- Restated congruence at the `equalsT` wrapper: any sufficient fuel computes
`equalsT`. -/
theorem equalsT_eq_equalsF {f : Nat} (t u : Ty) (h : dM t u < f) :
    equalsT t u = equalsF f t u :=
  equalsF_congr (dM t u) (dM t u + 1) f t u le_rfl (by omega) h

theorem equalsT_prim_alias (n m : String) (p : Ty) :
    equalsT (.prim n) (.alias m p) = equalsT (.alias m p) (.prim n) := by
  show equalsF (dM (.prim n) (.alias m p) + 1) (.prim n) (.alias m p) = _
  simp only [equalsF]
  exact (equalsT_eq_equalsF (.alias m p) (.prim n) (dM_swap_lt (by simp [flagT]))).symm

theorem equalsT_prim_union (n m : String) (os : List Ty) :
    equalsT (.prim n) (.union m os) = equalsT (.union m os) (.prim n) := by
  show equalsF (dM (.prim n) (.union m os) + 1) (.prim n) (.union m os) = _
  simp only [equalsF]
  exact (equalsT_eq_equalsF (.union m os) (.prim n) (dM_swap_lt (by simp [flagT]))).symm

theorem equalsT_gfn_alias (g : String) (pp : List Exp) (rr : String) (bb : Exp) (ee : Nat)
    (m : String) (p : Ty) :
    equalsT (.gfn g pp rr bb ee) (.alias m p) = equalsT (.alias m p) (.gfn g pp rr bb ee) := by
  show equalsF (dM (.gfn g pp rr bb ee) (.alias m p) + 1) (.gfn g pp rr bb ee) (.alias m p) = _
  simp only [equalsF]
  exact (equalsT_eq_equalsF (.alias m p) (.gfn g pp rr bb ee)
    (dM_swap_lt (by simp [flagT]))).symm

theorem equalsT_gfn_union (g : String) (pp : List Exp) (rr : String) (bb : Exp) (ee : Nat)
    (m : String) (os : List Ty) :
    equalsT (.gfn g pp rr bb ee) (.union m os) = equalsT (.union m os) (.gfn g pp rr bb ee) := by
  show equalsF (dM (.gfn g pp rr bb ee) (.union m os) + 1) (.gfn g pp rr bb ee) (.union m os) = _
  simp only [equalsF]
  exact (equalsT_eq_equalsF (.union m os) (.gfn g pp rr bb ee)
    (dM_swap_lt (by simp [flagT]))).symm

theorem equalsT_alias_unfold (n : String) (p u : Ty) :
    equalsT (.alias n p) u =
      if some n == tyName u then .ok true else equalsT p u := by
  show equalsF (dM (.alias n p) u + 1) (.alias n p) u = _
  simp only [equalsF]
  cases hc : (some n == tyName u)
  · simp only [Bool.false_eq_true, if_false]
    exact (equalsT_eq_equalsF p u (dM_lt_of_size (by simp only [tySize]; omega))).symm
  · simp

theorem equalsT_prim_prim (a b : String) :
    equalsT (.prim a) (.prim b) = .ok (a == b) := by
  show equalsF (dM (.prim a) (.prim b) + 1) (.prim a) (.prim b) = _
  simp [equalsF, tyName]

/-- Union receiver against a non-`Alias`, non-`Union`, non-identical argument:
the option-membership loop, each test being `option.equals(other)`. -/
theorem equalsT_union_other (n : String) (os : List Ty) (u : Ty)
    (hu : isAliasOrUnion u = false) (hne : beqTy (.union n os) u = false) :
    equalsT (.union n os) u = someEq (fun o => equalsT o u) os := by
  show equalsF (dM (.union n os) u + 1) (.union n os) u = _
  simp only [equalsF, hne, Bool.false_eq_true, if_false]
  have hcong : ∀ o ∈ os, equalsF (dM (.union n os) u) o u = equalsT o u := by
    intro o ho
    refine (equalsT_eq_equalsF o u (dM_lt_of_size ?_)).symm
    have := tySizeList_lt_of_mem ho
    simp only [tySize]
    omega
  cases u
  next => exact someEq_congr hcong
  next => exact someEq_congr hcong
  next => simp [isAliasOrUnion] at hu
  next => simp [isAliasOrUnion] at hu
  next => exact someEq_congr hcong
  next => exact someEq_congr hcong

/-- Union receiver against a distinct union: `includesAll` — size-exact
membership of the other union's options in this union. -/
theorem equalsT_union_union (n : String) (os : List Ty) (m : String) (qs : List Ty)
    (hne : beqTy (.union n os) (.union m qs) = false) :
    equalsT (.union n os) (.union m qs) =
      if qs.length ≠ os.length then .ok false
      else allEqMember (fun q => equalsT (.union n os) q) qs := by
  have h0 : equalsT (.union n os) (.union m qs) =
      (if beqTy (.union n os) (.union m qs) then (.ok true : Except Err Bool)
       else if qs.length ≠ os.length then .ok false
       else allEqMember
         (fun q => equalsF (dM (.union n os) (.union m qs)) (.union n os) q) qs) := rfl
  rw [h0, hne]
  simp only [Bool.false_eq_true, if_false]
  by_cases hlen : qs.length = os.length
  · simp only [hlen, ne_eq, not_true_eq_false, if_false]
    refine allEqMember_congr fun q hq => ?_
    refine (equalsT_eq_equalsF (.union n os) q (dM_lt_of_size ?_)).symm
    have := tySizeList_lt_of_mem hq
    simp only [tySize]
    omega
  · simp [hlen]

theorem someEq_true_iff (s : Ty → Except Err Bool) (os : List Ty) :
    someEq s os = .ok true ↔
      ∃ pre o post, os = pre ++ o :: post ∧ s o = .ok true ∧ ∀ x ∈ pre, s x = .ok false := by
  induction os with
  | nil =>
    simp only [someEq]
    constructor
    · intro h; cases h
    · rintro ⟨pre, o, post, h, -, -⟩
      exact absurd h (by simp)
  | cons a os iha =>
    simp only [someEq]
    cases ha : s a with
    | ok v =>
      cases v
      · rw [iha]
        constructor
        · rintro ⟨pre, o, post, rfl, ho, hpre⟩
          refine ⟨a :: pre, o, post, rfl, ho, ?_⟩
          intro x hx
          rcases List.mem_cons.mp hx with rfl | hx2
          · exact ha
          · exact hpre x hx2
        · rintro ⟨pre, o, post, hsplit, ho, hpre⟩
          cases pre with
          | nil =>
            simp only [List.nil_append] at hsplit
            cases hsplit
            rw [ho] at ha
            cases ha
          | cons p pre2 =>
            rw [List.cons_append] at hsplit
            injection hsplit with h1 h2
            subst h1
            exact ⟨pre2, o, post, h2, ho, fun x hx => hpre x (List.mem_cons_of_mem _ hx)⟩
      · constructor
        · intro _
          exact ⟨[], a, os, rfl, ha, by simp⟩
        · intro _
          rfl
    | error e =>
      constructor
      · intro h; cases h
      · rintro ⟨pre, o, post, hsplit, ho, hpre⟩
        cases pre with
        | nil =>
          simp only [List.nil_append] at hsplit
          cases hsplit
          rw [ho] at ha
          cases ha
        | cons p pre2 =>
          rw [List.cons_append] at hsplit
          injection hsplit with h1 h2
          subst h1
          have := hpre a (List.mem_cons_self a pre2)
          rw [this] at ha
          cases ha

theorem allEqMember_true_iff (s : Ty → Except Err Bool) (qs : List Ty) :
    allEqMember s qs = .ok true ↔ ∀ q ∈ qs, s q = .ok true := by
  induction qs with
  | nil => simp [allEqMember]
  | cons a qs iha =>
    simp only [allEqMember]
    cases ha : s a with
    | ok v =>
      cases v
      · constructor
        · intro h; cases h
        · intro h
          have := h a (List.mem_cons_self a qs)
          rw [this] at ha
          cases ha
      · rw [iha]
        constructor
        · intro h q hq
          rcases List.mem_cons.mp hq with rfl | hq2
          · exact ha
          · exact h q hq2
        · intro h q hq
          exact h q (List.mem_cons_of_mem a hq)
    | error e =>
      constructor
      · intro h; cases h
      · intro h
        have := h a (List.mem_cons_self a qs)
        rw [this] at ha
        cases ha

theorem noFnList_mem {ts : List Ty} {t : Ty} (h : noFnList ts = true) (ht : t ∈ ts) :
    noFn t = true := by
  induction ts with
  | nil => cases ht
  | cons x xs ihx =>
    simp only [noFnList, Bool.and_eq_true] at h
    rcases List.mem_cons.mp ht with rfl | hmem
    · exact h.1
    · exact ihx h.2 hmem

theorem someEq_total {s : Ty → Except Err Bool} {os : List Ty}
    (h : ∀ o ∈ os, ∃ b, s o = .ok b) : ∃ b, someEq s os = .ok b := by
  induction os with
  | nil => exact ⟨false, rfl⟩
  | cons o os iho =>
    obtain ⟨b, hb⟩ := h o (List.mem_cons_self o os)
    cases b
    · obtain ⟨b2, hb2⟩ := iho fun x hx => h x (List.mem_cons_of_mem o hx)
      exact ⟨b2, by simp [someEq, hb, hb2]⟩
    · exact ⟨true, by simp [someEq, hb]⟩

theorem allEqMember_total {s : Ty → Except Err Bool} {qs : List Ty}
    (h : ∀ q ∈ qs, ∃ b, s q = .ok b) : ∃ b, allEqMember s qs = .ok b := by
  induction qs with
  | nil => exact ⟨true, rfl⟩
  | cons q qs ihq =>
    obtain ⟨b, hb⟩ := h q (List.mem_cons_self q qs)
    cases b
    · exact ⟨false, by simp [allEqMember, hb]⟩
    · obtain ⟨b2, hb2⟩ := ihq fun x hx => h x (List.mem_cons_of_mem q hx)
      exact ⟨b2, by simp [allEqMember, hb, hb2]⟩

theorem equalsF_total :
    ∀ n f t u, dM t u ≤ n → dM t u < f → noFn t = true → noFn u = true →
      ∃ b, equalsF f t u = .ok b := by
  intro n
  induction n using Nat.strong_induction_on with
  | _ n ih =>
    intro f t u hn hf ht hu
    obtain ⟨a, rfl⟩ : ∃ a, f = a + 1 := ⟨f - 1, by omega⟩
    have hda : dM t u ≤ a := by omega
    have key : ∀ t2 u2, dM t2 u2 < dM t u → noFn t2 = true → noFn u2 = true →
        ∃ b, equalsF a t2 u2 = .ok b :=
      fun t2 u2 hlt h2 h3 =>
        ih (dM t2 u2) (lt_of_lt_of_le hlt hn) a t2 u2 le_rfl
          (lt_of_lt_of_le hlt hda) h2 h3
    clear ih hn hf hda
    cases t
    -- receiver: prim
    next nm =>
      cases u
      next => exact ⟨_, rfl⟩
      next => simp [noFn] at hu
      next n2 p2 =>
        simp only [equalsF]
        exact key _ _ (dM_swap_lt (by simp [flagT])) hu ht
      next n2 os2 =>
        simp only [equalsF]
        exact key _ _ (dM_swap_lt (by simp [flagT])) hu ht
      next => exact ⟨_, rfl⟩
      next => exact ⟨_, rfl⟩
    -- receiver: fn
    next nm ps r => simp [noFn] at ht
    -- receiver: alias
    next nm p =>
      simp only [noFn] at ht
      simp only [equalsF]
      cases hc : (some nm == tyName u)
      · simp only [Bool.false_eq_true, if_false]
        exact key p u (dM_lt_of_size (by simp only [tySize]; omega)) ht hu
      · exact ⟨true, by simp⟩
    -- receiver: union
    next nm os =>
      simp only [noFn] at ht
      simp only [equalsF]
      cases hbe : beqTy (Ty.union nm os) u
      · simp only [Bool.false_eq_true, if_false]
        have hsome : ∀ u2, noFn u2 = true →
            (∀ o ∈ os, ∃ b, equalsF a o u2 = .ok b) → True := fun _ _ _ => trivial
        cases u
        next n2 =>
          refine someEq_total fun o ho => ?_
          refine key o _ (dM_lt_of_size ?_) (noFnList_mem ht ho) hu
          have := tySizeList_lt_of_mem ho
          simp only [tySize]; omega
        next n2 ps2 r2 => simp [noFn] at hu
        next n2 p2 =>
          exact key _ _ (dM_swap_lt (by simp [flagT])) hu (by simp [noFn]; exact ht)
        next n2 qs =>
          by_cases hlen : qs.length = os.length
          · simp only [hlen, ne_eq, not_true_eq_false, if_false]
            simp only [noFn] at hu
            refine allEqMember_total fun q hq => ?_
            refine key _ q (dM_lt_of_size ?_) (by simp [noFn]; exact ht) (noFnList_mem hu hq)
            have := tySizeList_lt_of_mem hq
            have h2 : tySizeList qs < tySize (Ty.union n2 qs) := by simp [tySize]
            simp only [tySize]; omega
          · exact ⟨false, by simp [hlen]⟩
        next n2 s2 e2 =>
          refine someEq_total fun o ho => ?_
          refine key o _ (dM_lt_of_size ?_) (noFnList_mem ht ho) hu
          have := tySizeList_lt_of_mem ho
          simp only [tySize]; omega
        next g2 p2 r2 b2 e2 =>
          refine someEq_total fun o ho => ?_
          refine key o _ (dM_lt_of_size ?_) (noFnList_mem ht ho) hu
          have := tySizeList_lt_of_mem ho
          simp only [tySize]; omega
      · exact ⟨true, by simp [hbe]⟩
    -- receiver: cls
    next nm sup ce =>
      simp only [noFn] at ht
      simp only [equalsF]
      cases hbe : beqTy (Ty.cls nm sup ce) u
      · simp only [Bool.false_eq_true, if_false]
        cases u
        next n2 =>
          cases hnull : beqTy sup (.prim "null")
          · simp only [Bool.false_eq_true, if_false]
            exact key sup _ (dM_lt_of_size (by simp only [tySize]; omega)) ht hu
          · exact ⟨false, by simp⟩
        next n2 ps2 r2 => simp [noFn] at hu
        next n2 p2 =>
          exact key _ _ (dM_swap_lt (by simp [flagT])) hu (by simp [noFn]; exact ht)
        next n2 os2 =>
          cases hnull : beqTy sup (.prim "null")
          · simp only [Bool.false_eq_true, if_false]
            exact key sup _ (dM_lt_of_size (by simp only [tySize]; omega)) ht hu
          · exact ⟨false, by simp⟩
        next n2 s2 e2 =>
          cases hnull : beqTy sup (.prim "null")
          · simp only [Bool.false_eq_true, if_false]
            exact key sup _ (dM_lt_of_size (by simp only [tySize]; omega)) ht hu
          · exact ⟨false, by simp⟩
        next g2 p2 r2 b2 e2 =>
          cases hnull : beqTy sup (.prim "null")
          · simp only [Bool.false_eq_true, if_false]
            exact key sup _ (dM_lt_of_size (by simp only [tySize]; omega)) ht hu
          · exact ⟨false, by simp⟩
      · exact ⟨true, by simp [hbe]⟩
    -- receiver: gfn
    next g p r bd e =>
      cases u
      next => exact ⟨_, rfl⟩
      next => simp [noFn] at hu
      next n2 p2 =>
        simp only [equalsF]
        exact key _ _ (dM_swap_lt (by simp [flagT])) hu ht
      next n2 os2 =>
        simp only [equalsF]
        exact key _ _ (dM_swap_lt (by simp [flagT])) hu ht
      next => exact ⟨_, rfl⟩
      next => exact ⟨_, rfl⟩

theorem equalsT_total {t u : Ty} (ht : noFn t = true) (hu : noFn u = true) :
    ∃ b, equalsT t u = .ok b :=
  equalsF_total (dM t u) (dM t u + 1) t u le_rfl (by omega) ht hu

theorem beqTy_prim_any (p : Ty) : beqTy p (.prim "any") = true ↔ p = .prim "any" := by
  cases p <;> simp [beqTy]

theorem checkArgs_ok_iff :
    ∀ ps args : List Ty, checkArgs ps args = .ok () ↔
      ∀ pr ∈ ps.zip args, pr.1 = .prim "any" ∨ equalsT pr.2 pr.1 = .ok true
  | [], args => by simp [checkArgs]
  | _ :: _, [] => by simp [checkArgs]
  | p :: ps, a :: args => by
    simp only [checkArgs, List.zip_cons_cons, List.mem_cons]
    by_cases hany : beqTy p (.prim "any") = true
    · simp only [hany, if_true]
      rw [checkArgs_ok_iff ps args]
      constructor
      · rintro h pr (rfl | hpr)
        · exact Or.inl ((beqTy_prim_any p).mp hany)
        · exact h pr hpr
      · intro h pr hpr
        exact h pr (Or.inr hpr)
    · simp only [hany, Bool.false_eq_true, if_false]
      cases ha : equalsT a p with
      | ok v =>
        cases v
        · constructor
          · intro h; cases h
          · intro h
            rcases h (p, a) (Or.inl rfl) with h1 | h2
            · exact absurd ((beqTy_prim_any p).mpr h1) hany
            · rw [h2] at ha; cases ha
        · rw [checkArgs_ok_iff ps args]
          constructor
          · rintro h pr (rfl | hpr)
            · exact Or.inr ha
            · exact h pr hpr
          · intro h pr hpr
            exact h pr (Or.inr hpr)
      | error e =>
        constructor
        · intro h; cases h
        · intro h
          rcases h (p, a) (Or.inl rfl) with h1 | h2
          · exact absurd ((beqTy_prim_any p).mpr h1) hany
          · rw [h2] at ha; cases ha

theorem tcF_if_unfold (f : Nat) (condition consequent alternate : Exp) (rest2 : List Exp)
    (env : Nat) (st : St) :
    tcF (f + 1) (.list (.str "if" :: condition :: consequent :: alternate :: rest2)) env st =
      ifContH (fun e2 en s => tcF f e2 en s) condition consequent alternate env st := rfl

/-- C1: the claim says `TypeEnvironment.lookup` searches the local scope and
then each parent outward, failing only when the name is absent from the whole
chain.  The implemented `lookup` never consults the parent: here the parent
environment (index 0) binds `x`, the child (index 1, parent 0) does not, and
`lookup` on the child still throws `ReferenceError` while the parent resolves
`x` locally. -/
theorem C1_lookup_ignores_parent :
    lookupVar
      { envs := [⟨[("x", .prim "number")], none⟩, ⟨[], some 0⟩], registry := primRegistry }
      1 "x" = .error (.refErr "x")
    ∧ lookupVar
      { envs := [⟨[("x", .prim "number")], none⟩, ⟨[], some 0⟩], registry := primRegistry }
      0 "x" = .ok (.prim "number") :=
  ⟨rfl, rfl⟩

/-- C2: with `Type.GenericFunction` modelled from the spec (its body is
`/* Implement here */` in the source), `(def id <T> ((x T)) -> T x)` followed
by `(id <number> 5)` checks to `number`, `(id <string> "a")` checks to
`string`, and calling the generic without a bracketed actual-type annotation
raises the `MissingGenericActualTypes` error. -/
theorem C2_generic_instantiation :
    tcRes 30 (.list [.str "begin", defIdExp, .list [.str "id", .str "<number>", .num 5]])
      = .ok (.prim "number")
    ∧ tcRes 30 (.list [.str "begin", defIdExp, .list [.str "id", .str "<string>", .str "\"a\""]])
      = .ok (.prim "string")
    ∧ tcRes 30 (.list [.str "begin", defIdExp, .list [.str "id", .num 5]])
      = .error .noActualTypes :=
  ⟨rfl, rfl, rfl⟩

/-- C3 counterexample: equality is not symmetric for every pair with a `Union`
on one side.  A root class `A` is an option of the union `U`, so `U.equals(A)`
is `true` by membership, but `Class.equals` never delegates to a `Union` and
walks the (empty) superclass chain to `false`. -/
theorem C3_counterexample :
    equalsT (.union "U" [.cls "A" (.prim "null") 5]) (.cls "A" (.prim "null") 5) = .ok true
    ∧ equalsT (.cls "A" (.prim "null") 5) (.union "U" [.cls "A" (.prim "null") 5]) = .ok false :=
  ⟨rfl, rfl⟩

/-- C3 amended: equality is symmetric when one side is an `Alias` or a `Union`
and the other side uses the base `Type.equals` (a primitive or a generic
function): the base method delegates to the compound side, so the two calls are
the same computation.  The symmetry does not extend to `Function` receivers
(which throw on non-`Function` arguments) or to `Class` receivers against
`Union`s (see the counterexample). -/
theorem C3_amended (t u : Ty) (ht : isBaseReceiver t = true) (hu : isAliasOrUnion u = true) :
    equalsT t u = equalsT u t := by
  cases t
  next n =>
    cases u
    next => simp [isAliasOrUnion] at hu
    next => simp [isAliasOrUnion] at hu
    next m p => exact equalsT_prim_alias n m p
    next m os => exact equalsT_prim_union n m os
    next => simp [isAliasOrUnion] at hu
    next => simp [isAliasOrUnion] at hu
  next => simp [isBaseReceiver] at ht
  next => simp [isBaseReceiver] at ht
  next => simp [isBaseReceiver] at ht
  next => simp [isBaseReceiver] at ht
  next g pp rr bb ee =>
    cases u
    next => simp [isAliasOrUnion] at hu
    next => simp [isAliasOrUnion] at hu
    next m p => exact equalsT_gfn_alias g pp rr bb ee m p
    next m os => exact equalsT_gfn_union g pp rr bb ee m os
    next => simp [isAliasOrUnion] at hu
    next => simp [isAliasOrUnion] at hu

/-- Witness for C3 amended at `number` versus the alias `int`. -/
theorem C3_witness :
    isBaseReceiver (.prim "number") = true
    ∧ isAliasOrUnion (.alias "int" (.prim "number")) = true
    ∧ equalsT (.prim "number") (.alias "int" (.prim "number"))
        = equalsT (.alias "int" (.prim "number")) (.prim "number") :=
  ⟨rfl, rfl, C3_amended (.prim "number") (.alias "int" (.prim "number")) rfl rfl⟩

/-- C4 counterexample: the union declared by `(type U (or Fn<number> number))`
does not equal `number` even though `number` equals the second option — the
membership loop tests `option.equals(candidate)` in order, and the `Function`
option throws a `TypeError` on the non-`Function` candidate before the matching
option is reached. -/
theorem C4_counterexample :
    equalsT (.union "U" [.fn "Fn<number>" [] (.prim "number"), .prim "number"])
      (.prim "number") = .error .typeErr
    ∧ equalsT (.prim "number") (.prim "number") = .ok true :=
  ⟨rfl, rfl⟩

/-- C4 amended: against a non-compound (non-`Alias`, non-`Union`), non-identical
type, a `Union` equals it exactly when some option's `equals` against it
returns `true` with every earlier option's test returning `false` (a throwing
test aborts the loop); against a distinct `Union`, exactly when the option
lists have equal length and every option of the other union is a member of
this one. -/
theorem C4_amended :
    (∀ (n : String) (os : List Ty) (u : Ty), isAliasOrUnion u = false →
      beqTy (.union n os) u = false →
      (equalsT (.union n os) u = .ok true ↔
        ∃ pre o post, os = pre ++ o :: post ∧ equalsT o u = .ok true ∧
          ∀ x ∈ pre, equalsT x u = .ok false))
    ∧ (∀ (n m : String) (os qs : List Ty), beqTy (.union n os) (.union m qs) = false →
        (equalsT (.union n os) (.union m qs) = .ok true ↔
          (qs.length = os.length ∧ ∀ q ∈ qs, equalsT (.union n os) q = .ok true))) := by
  constructor
  · intro n os u hu hne
    rw [equalsT_union_other n os u hu hne, someEq_true_iff]
  · intro n m os qs hne
    rw [equalsT_union_union n os m qs hne]
    by_cases hlen : qs.length = os.length
    · simp only [hlen, ne_eq, not_true_eq_false, if_false]
      rw [allEqMember_true_iff]
      simp [hlen]
    · rw [if_pos hlen]
      simp [hlen]

/-- Witness for C4 amended: `NumOrStr` against `string`. -/
theorem C4_witness :
    isAliasOrUnion (.prim "string") = false
    ∧ beqTy (.union "NS" [.prim "number", .prim "string"]) (.prim "string") = false
    ∧ (equalsT (.union "NS" [.prim "number", .prim "string"]) (.prim "string") = .ok true ↔
        ∃ pre o post, [Ty.prim "number", Ty.prim "string"] = pre ++ o :: post ∧
          equalsT o (.prim "string") = .ok true ∧
          ∀ x ∈ pre, equalsT x (.prim "string") = .ok false) :=
  ⟨rfl, rfl, C4_amended.1 "NS" [.prim "number", .prim "string"] (.prim "string") rfl rfl⟩

/-- C5: `(type int number)` registers the alias; `int.equals(number)` and
`number.equals(int)` are both true; a program passes an `int` value where
`number` is expected and vice versa; and an alias chain of any length is equal
to its ultimate base in both directions. -/
theorem C5_alias_transitivity :
    (equalsT (.alias "int" (.prim "number")) (.prim "number") = .ok true
      ∧ equalsT (.prim "number") (.alias "int" (.prim "number")) = .ok true)
    ∧ (tcRes 40 intAliasProg = .ok (.alias "int" (.prim "number"))
      ∧ (match tcGlobal 40 intAliasProg with
         | .ok (_, stF) => regGet stF "int"
         | .error _ => none) = some (.alias "int" (.prim "number")))
    ∧ (∀ (ns : List String) (b : String),
        equalsT (aliasChain ns (.prim b)) (.prim b) = .ok true
        ∧ equalsT (.prim b) (aliasChain ns (.prim b)) = .ok true) := by
  refine ⟨⟨rfl, rfl⟩, ⟨rfl, rfl⟩, ?_⟩
  intro ns b
  induction ns with
  | nil =>
    have hb : equalsT (.prim b) (.prim b) = .ok true := by
      rw [equalsT_prim_prim]
      simp
    exact ⟨hb, hb⟩
  | cons n2 ns ihns =>
    have h1 : equalsT (.alias n2 (aliasChain ns (.prim b))) (.prim b) = .ok true := by
      rw [equalsT_alias_unfold]
      cases hc : (some n2 == tyName (Ty.prim b)) <;> simp [hc, ihns.1]
    refine ⟨h1, ?_⟩
    show equalsT (.prim b) (.alias n2 (aliasChain ns (.prim b))) = .ok true
    rw [equalsT_prim_alias]
    exact h1

/-- C6 counterexample: the condition `(== (typeof x) y)` — with `y` an
ordinary string variable, not a quoted type-name literal — is not the claimed
exact cast shape, so the claim says both branches are checked in the original
environment (which would succeed with type `string`, as the base program
shows).  Instead the checker treats it as a cast condition, strips the first
and last characters of `y`, and aborts with `Unknown type: `. -/
theorem C6_counterexample :
    tcRes 30 typeofVarCondProg = .error (.unknownType "")
    ∧ tcRes 30 typeofVarCondBase = .ok (.prim "string") :=
  ⟨rfl, rfl⟩

/-- C6 amended: narrowing triggers for every condition whose operator is `==`
and whose second element is a list headed `typeof`, whatever the right-hand
side is (part 1).  For a condition the guard rejects, both branches are
checked in the original environment (part 2).  For the guarded shape, the
consequent is checked in a fresh child environment rebinding the name to the
type named by the right-hand side with its first and last characters stripped,
while the alternate stays in the original environment (part 3).  Parts 4 and 5
observe the rebinding: with `x : NS` (number-or-string), `(set x 5)` fails
inside the cast-guarded branch (`x` narrowed to `string`) but passes under a
non-cast condition. -/
theorem C6_amended :
    (∀ (lrest rest2 : List Exp),
      castCheck (.list (.str "==" :: .list (.str "typeof" :: lrest) :: rest2)) = .ok true)
    ∧ (∀ (f : Nat) (cond conseq alt : Exp) (env : Nat) (st : St) (t1 : Ty) (st1 : St)
        (t2 : Ty) (st3 : St) (t3 : Ty) (st4 : St),
        castCheck cond = .ok false →
        tcF f cond env st = .ok (t1, st1) →
        equalsT t1 (.prim "boolean") = .ok true →
        tcF f conseq env st1 = .ok (t2, st3) →
        tcF f alt env st3 = .ok (t3, st4) →
        tcF (f + 1) (.list [.str "if", cond, conseq, alt]) env st =
          match expectT t3 t2 with
          | .ok t => .ok (t, st4)
          | .error e => .error e)
    ∧ (∀ (f : Nat) (name rhs : String) (conseq alt : Exp) (env : Nat) (st : St)
        (t1 : Ty) (st1 : St) (nt : Ty) (st2 : St) (ce : Nat) (stc : St)
        (t2 : Ty) (st3 : St) (t3 : Ty) (st4 : St),
        tcF f (.list [.str "==", .list [.str "typeof", .str name], .str rhs]) env st
          = .ok (t1, st1) →
        equalsT t1 (.prim "boolean") = .ok true →
        fromString st1 (stripEnds rhs) = .ok (nt, st2) →
        newEnv st2 [(name, nt)] (some env) = (ce, stc) →
        tcF f conseq ce stc = .ok (t2, st3) →
        tcF f alt env st3 = .ok (t3, st4) →
        tcF (f + 1) (.list [.str "if",
            .list [.str "==", .list [.str "typeof", .str name], .str rhs],
            conseq, alt]) env st =
          match expectT t3 t2 with
          | .ok t => .ok (t, st4)
          | .error e => .error e)
    ∧ tcRes 40 narrowProg = .error (.expectFail "number" "string")
    ∧ tcRes 40 noNarrowProg = .ok (.prim "number") := by
  refine ⟨fun lrest rest2 => rfl, ?_, ?_, rfl, rfl⟩
  · intro f cond conseq alt env st t1 st1 t2 st3 t3 st4 hcast hcond hbool hthen halt
    have hexp : expectT t1 (.prim "boolean") = .ok t1 := by simp [expectT, hbool]
    simp only [tcF_if_unfold, ifContH, hcond, hexp, hcast, Bool.false_eq_true, if_false,
      hthen, halt]
    cases expectT t3 t2 <;> rfl
  · intro f name rhs conseq alt env st t1 st1 nt st2 ce stc t2 st3 t3 st4
      hcond hbool hfrom hnew hthen halt
    have hexp : expectT t1 (.prim "boolean") = .ok t1 := by simp [expectT, hbool]
    have hcast :
        castCheck (.list [.str "==", .list [.str "typeof", .str name], .str rhs])
          = .ok true := rfl
    have hspec :
        getSpecifiedType (.list [.str "==", .list [.str "typeof", .str name], .str rhs])
          = .ok (name, stripEnds rhs) := rfl
    simp only [tcF_if_unfold, ifContH, hcond, hexp, hcast, hspec, hfrom, hnew, if_true,
      hthen, halt]
    cases expectT t3 t2 <;> rfl

/-- Witness for C6 amended, part 2, at the non-cast condition `(== 1 1)`. -/
theorem C6_witness :
    castCheck (.list [.str "==", .num 1, .num 1]) = .ok false
    ∧ tcF 6 (.list [.str "if", .list [.str "==", .num 1, .num 1], .num 1, .num 2])
        globalEnv globalSt =
        match expectT (.prim "number") (.prim "number") with
        | .ok t => .ok (t, globalSt)
        | .error e => .error e :=
  ⟨rfl,
    C6_amended.2.1 5 (.list [.str "==", .num 1, .num 1]) (.num 1) (.num 2)
      globalEnv globalSt (.prim "boolean") globalSt (.prim "number") globalSt
      (.prim "number") globalSt rfl rfl rfl rfl rfl⟩

/-- C7: calling a concrete `Function` type checks exact arity (an arity error
otherwise), then each argument pairwise against the parameter types, where a
parameter that is the `any` singleton accepts anything and every other
parameter requires the argument's `equals` against it to return `true`; on
success the call's type is the function's declared return type. -/
theorem C7_function_call (name : String) (ps : List Ty) (r : Ty) (args : List Ty) :
    (ps.length ≠ args.length →
      checkFunctionCall (.fn name ps r) args = .error (.arity ps.length args.length))
    ∧ (∀ t, checkFunctionCall (.fn name ps r) args = .ok t ↔
        (t = r ∧ ps.length = args.length ∧
          ∀ pr ∈ ps.zip args, pr.1 = .prim "any" ∨ equalsT pr.2 pr.1 = .ok true)) := by
  constructor
  · intro h
    simp [checkFunctionCall, h]
  · intro t
    by_cases hlen : ps.length = args.length
    · simp only [checkFunctionCall]
      rw [if_neg (by omega)]
      cases hargs : checkArgs ps args with
      | ok u =>
        cases u
        rw [checkArgs_ok_iff] at hargs
        constructor
        · intro h
          injection h with h2
          exact ⟨h2.symm, hlen, hargs⟩
        · rintro ⟨rfl, -, -⟩
          rfl
      | error e =>
        constructor
        · intro h; cases h
        · rintro ⟨rfl, -, hall⟩
          have h2 : checkArgs ps args = .ok () := (checkArgs_ok_iff ps args).mpr hall
          rw [h2] at hargs
          cases hargs
    · simp only [checkFunctionCall]
      rw [if_pos hlen]
      constructor
      · intro h; cases h
      · rintro ⟨-, h2, -⟩
        exact absurd h2 hlen

/-- Witness for C7: an `any` parameter accepting a `string`, a `number`
parameter matched exactly, and an arity failure. -/
theorem C7_witness :
    checkFunctionCall (.fn "f" [.prim "any", .prim "number"] (.prim "number"))
      [.prim "string", .prim "number"] = .ok (.prim "number")
    ∧ checkFunctionCall (.fn "g" [.prim "number"] (.prim "number")) []
        = .error (.arity 1 0) :=
  ⟨((C7_function_call "f" [.prim "any", .prim "number"] (.prim "number")
      [.prim "string", .prim "number"]).2 (.prim "number")).mpr
    ⟨rfl, rfl, by
      intro pr hpr
      rcases List.mem_cons.mp hpr with rfl | hpr2
      · exact Or.inl rfl
      · rcases List.mem_singleton.mp hpr2 with rfl
        exact Or.inr rfl⟩,
    (C7_function_call "g" [.prim "number"] (.prim "number") []).1 (by decide)⟩

/-- C8: the claim says the recursive `fact` declaration type-checks to
`Fn<number<number>>` because `def` pre-registers the signature.  `def` does
pre-register the name in the current scope, but the body is checked in a child
environment and the stub `lookup` never reaches the parent, so the recursive
reference throws `ReferenceError: fact is not defined`.  A non-recursive `def`
of the same shape checks fine, isolating the failure to the self-reference. -/
theorem C8_recursive_def_fails :
    tcRes 30 factExp = .error (.refErr "fact")
    ∧ tcRes 30 squareDefExp
        = .ok (.fn "Fn<number<number>>" [.prim "number"] (.prim "number")) :=
  ⟨rfl, rfl⟩

/-- C9 counterexample: redeclaring a union name and redeclaring a class name
both succeed and overwrite — only the plain-alias form checks for duplicates.
Both programs redeclare a name and return normally. -/
theorem C9_counterexample :
    tcRes 30 (.list [.str "begin",
      .list [.str "type", .str "NS3", .list [.str "or", .str "number", .str "string"]],
      .list [.str "type", .str "NS3", .list [.str "or", .str "number", .str "string"]]])
      = .ok (.union "NS3" [.prim "number", .prim "string"])
    ∧ tcRes 30 (.list [.str "begin",
        .list [.str "class", .str "C", .str "null", .num 1],
        .list [.str "class", .str "C", .str "null", .num 1]])
      = .ok (.cls "C" (.prim "null") 2) :=
  ⟨rfl, rfl⟩

/-- C9 amended: only the alias form `(type Name Base)` with a non-union base
checks the registry and raises `DuplicateTypeDeclaration` when `Name` is
already registered; union and class declarations perform no duplicate check
and overwrite (see the counterexample). -/
theorem C9_alias_duplicate (f : Nat) (name base : String) (env : Nat) (st : St)
    (h : regHas st name = true) :
    tcF (f + 1) (.list [.str "type", .str name, .str base]) env st
      = .error (.dupType name) := by
  have h0 : tcF (f + 1) (.list [.str "type", .str name, .str base]) env st =
      (if regHas st name then .error (.dupType name)
       else
         match regGet st base with
         | none => .error (.undefType base)
         | some baseTy =>
           .ok (Ty.alias name baseTy, regSet st name (Ty.alias name baseTy))) := rfl
  rw [h0, h]
  simp

/-- Witness for C9 amended: `number` is registered from the start, so
`(type number string)` raises the duplicate-declaration error. -/
theorem C9_witness :
    regHas st0 "number" = true
    ∧ tcF 1 (.list [.str "type", .str "number", .str "string"]) 0 st0
        = .error (.dupType "number") :=
  ⟨rfl, C9_alias_duplicate 0 "number" "string" 0 st0 rfl⟩

/-- C10 counterexample: `equals` is not total — `Type.Function.equals` reads
`paramTypes` off its argument, so comparing a `Function` with a `Primitive`
throws a `TypeError` instead of returning a boolean. -/
theorem C10_counterexample :
    equalsT (.fn "Fn<number>" [] (.prim "number")) (.prim "number") = .error .typeErr := rfl

/-- C10 amended: the equality protocol is total on every pair of types in which
no `Function` type occurs anywhere (directly, behind alias parents, among
union options, or up superclass chains): on such pairs `equals` always returns
a boolean. -/
theorem C10_totality_no_fn (t u : Ty) (ht : noFn t = true) (hu : noFn u = true) :
    ∃ b, equalsT t u = .ok b :=
  equalsT_total ht hu

/-- Witness for C10 amended at an alias against a union. -/
theorem C10_witness :
    noFn (.alias "int" (.prim "number")) = true
    ∧ noFn (.union "U" [.prim "number"]) = true
    ∧ ∃ b, equalsT (.alias "int" (.prim "number")) (.union "U" [.prim "number"]) = .ok b :=
  ⟨rfl, rfl, C10_totality_no_fn _ _ rfl rfl⟩

end Eva
